import Mathlib

/-!
Verification of the Game-of-Life simulation core of the `bevy-game-of-life`
repository.  The repository holds two variants of the simulation engine:

* `rust_game_of_life/src/universe.rs` — the *unbounded* variant: live cells
  are a hash map keyed by `Position` (i32 pair); absence means dead.
* `src/universe.rs` — the *bounded* variant: a `Vec<Vec<CellData>>` grid with
  toroidal wraparound, each slot holding a `CellState` and an engine handle.

The engine glue (Bevy `Entity` spawning, materials, commands) is excluded
rendering machinery; the unbounded variant is therefore modelled as the set of
live positions (a `Finset`), while the bounded variant keeps the per-slot
`entity` field (modelled as `Option Nat`) because it is data the grid carries
through `tick`.

Rust `HashMap` iteration order is unspecified, so every operation of the
unbounded variant that iterates the map is modelled as a fold over an explicit
iteration-order list `order` whose elements are exactly the live cells; the
theorems quantify over all such orders.  Rust `random::<f32>()` draws are
modelled as an explicit stream `draws : Nat → ℚ` consumed in loop order.

The file is laid out as definitions first (both variants), then the proof
development, then the claim theorems.
-/

namespace GoL

namespace Unbounded

/-- Source `Position` from `rust_game_of_life/src/utils.rs`: a pair of `i32`
coordinates, compared and hashed by value. -/
structure Position where
  x : Int
  y : Int
deriving DecidableEq, Repr

/-- The list of integers of a Rust `lo..hi` range over `i32`, in increasing
order.  Used to model the integer-range loops of the source. -/
def rangeInt (lo hi : Int) : List Int :=
  (List.range (hi - lo).toNat).map fun (i : Nat) => lo + (i : Int)

/-- Source `Position::neighbors` (`utils.rs` lines 10–21): the 8 Moore neighbours,
produced by the row-major double loop `y in self.y-1..self.y+2`,
`x in self.x-1..self.x+2`, skipping the centre. -/
def Position.neighbors (p : Position) : List Position :=
  (rangeInt (p.y - 1) (p.y + 2)).flatMap fun y =>
    (rangeInt (p.x - 1) (p.x + 2)).filterMap fun x =>
      if x = p.x ∧ y = p.y then none else some ⟨x, y⟩

/-- Source `SizeInt` from `rust_game_of_life/src/utils.rs`: an `i32` pair. -/
structure SizeInt where
  width : Int
  height : Int
deriving DecidableEq, Repr

/-- The live-cell store of `Universe` (`universe.rs` line 50): a `HashMap`
from `Position` to the live-cell record.  Only the key set matters to the
simulation (the stored `Cell` holds a Bevy `Entity`, which is rendering
glue), so the map is modelled as the finite set of live positions. -/
abbrev Cells := Finset Position

/-- Source `Bounds` (`universe.rs` lines 20–26). -/
structure Bounds where
  top : Int
  right : Int
  bottom : Int
  left : Int
deriving DecidableEq, Repr

/-- The constant `i32::MAX`, used by `Universe::bounds` as the sentinel initial extrema. -/
def MAX : Int := 2147483647

/-- Source `Universe::bounds` (`universe.rs` lines 61–83): fold the min/max extrema
over the live cells, starting from the sentinel rectangle
`top = -MAX, bottom = MAX, left = MAX, right = -MAX`.  The hash-map iteration
order is passed explicitly as `order`. -/
def bounds (order : List Position) : Bounds :=
  order.foldl
    (fun b pos =>
      let b := if pos.y > b.top then { b with top := pos.y } else b
      let b := if pos.y < b.bottom then { b with bottom := pos.y } else b
      let b := if pos.x < b.left then { b with left := pos.x } else b
      if pos.x > b.right then { b with right := pos.x } else b)
    { top := -MAX, bottom := MAX, left := MAX, right := -MAX }

/-- Source `Universe::toggle_cells_at` (`universe.rs` lines 84–98): for each given
position, remove it from the live set when present, insert it when absent.
(The entity spawn/despawn side effects are rendering glue.) -/
def toggle_cells_at (cells : Cells) (positions : List Position) : Cells :=
  positions.foldl (fun cells pos => if pos ∈ cells then cells.erase pos else insert pos cells) cells

/-- The half-size computed by `Universe::generate` (`universe.rs` lines
122–125): `(size.width as f32 / 2.0) as i32`, i.e. division by two rounded
towards zero (the `f32` detour is exact for every |width| < 2^24). -/
def halfOf (n : Int) : Int := Int.tdiv n 2

/-- The positions visited by the generation loops of `Universe::generate`
(`universe.rs` lines 126–133): `y in -half_size.height..half_size.height`,
`x in -half_size.width..half_size.width`, in row-major order. -/
def generatePositions (size : SizeInt) : List Position :=
  (rangeInt (-halfOf size.height) (halfOf size.height)).flatMap fun y =>
    (rangeInt (-halfOf size.width) (halfOf size.width)).map fun x => ⟨x, y⟩

/-- Source `Universe::generate` (`universe.rs` lines 115–135): one uniform draw per
visited position, in loop order (`draws i` models the `i`-th call of
`random::<f32>()`, `life_chance` the threshold); a position becomes a live
cell exactly when its draw is below `life_chance`. -/
def generate (size : SizeInt) (life_chance : ℚ) (draws : Nat → ℚ) : Cells :=
  (generatePositions size).enum.foldl
    (fun cells ip => if draws ip.1 < life_chance then insert ip.2 cells else cells) ∅

/-- Source `Universe::live_neighbor_count` (`universe.rs` lines 136–144): count the
neighbours of `pos` present in the live-cell map. -/
def liveNeighborCount (cells : Cells) (pos : Position) : Nat :=
  pos.neighbors.foldl (fun count q => if q ∈ cells then count + 1 else count) 0

/-- The in-progress state of `Universe::tick` (`universe.rs` lines 151–195):
the next-generation buffer `next` (initialised to a clone of the live map)
and the list `visited` of positions already evaluated, in push order. -/
structure TickState where
  next : Cells
  visited : List Position

/-- The body of the inner loop of `Universe::tick` (lines 174–191): a
neighbour `np` of an alive cell is skipped when already visited or itself
alive; otherwise it is evaluated against the pre-tick snapshot `cells`
(born iff its live-neighbour count is in `birth`) and pushed on `visited`. -/
def processNeighbor (cells : Cells) (birth : List Nat) (acc : TickState) (np : Position) :
    TickState :=
  if np ∈ acc.visited ∨ np ∈ cells then acc
  else
    let is_born := np ∉ cells ∧ liveNeighborCount cells np ∈ birth
    { next := if is_born then insert np acc.next else acc.next
      visited := acc.visited ++ [np] }

/-- The body of the outer loop of `Universe::tick` (lines 159–193): an alive
cell `pos` is skipped when already visited; otherwise it is removed from the
next generation when its pre-tick live-neighbour count is not in `allowed`,
its dead neighbours are evaluated by the inner loop, and it is pushed on
`visited`. -/
def processCell (cells : Cells) (allowed birth : List Nat) (acc : TickState) (pos : Position) :
    TickState :=
  if pos ∈ acc.visited then acc
  else
    let dies := liveNeighborCount cells pos ∉ allowed
    let next1 := if dies then acc.next.erase pos else acc.next
    let acc1 := pos.neighbors.foldl (processNeighbor cells birth) ⟨next1, acc.visited⟩
    { next := acc1.next, visited := acc1.visited ++ [pos] }

/-- Source `Universe::tick` (lines 151–195) down to its final state: fold the loop
body over the hash-map iteration order `order`, starting from a clone of the
pre-tick live map and an empty visited list. -/
def tickAux (cells : Cells) (allowed birth : List Nat) (order : List Position) : TickState :=
  order.foldl (processCell cells allowed birth) ⟨cells, []⟩

/-- Source `Universe::tick`: the new live-cell map that replaces `self.cells` after
the loops finish. -/
def tick (cells : Cells) (allowed birth : List Nat) (order : List Position) : Cells :=
  (tickAux cells allowed birth order).next

/-- The next-generation membership predicate that claim C1 states: an alive
cell survives exactly when its pre-tick live-neighbour count is allowed, a
dead Moore-neighbour of an alive cell is born exactly when its pre-tick
live-neighbour count is in the birth set, everything else is dead. -/
def SpecNext (cells : Cells) (allowed birth : List Nat) (p : Position) : Prop :=
  (p ∈ cells ∧ liveNeighborCount cells p ∈ allowed) ∨
  (p ∉ cells ∧ (∃ q ∈ cells, p ∈ q.neighbors) ∧ liveNeighborCount cells p ∈ birth)

/-- The invariant of the outer loop of `tick`: after the alive cells `done`
have been processed, `visited` holds exactly the processed cells and the dead
neighbours they evaluated (without duplicates), and the buffer `next` holds
an alive cell unless it was processed and died, and holds a dead position
exactly when it was evaluated and satisfied the birth rule. -/
def TickInv (cells : Cells) (allowed birth : List Nat) (done : List Position)
    (s : TickState) : Prop :=
  (∀ q ∈ done, q ∈ cells)
  ∧ (∀ v, v ∈ s.visited ↔ (v ∈ done ∨ (v ∉ cells ∧ ∃ q ∈ done, v ∈ q.neighbors)))
  ∧ (∀ p, p ∈ s.next ↔
      ((p ∈ cells ∧ (p ∈ done → liveNeighborCount cells p ∈ allowed)) ∨
       (p ∉ cells ∧ (∃ q ∈ done, p ∈ q.neighbors) ∧ liveNeighborCount cells p ∈ birth)))
  ∧ s.visited.Nodup

end Unbounded

namespace Bounded

/-- Source `CellState` from `src/universe.rs` lines 10–15. -/
inductive CellState where
  | Dead
  | Alive
deriving DecidableEq, Repr

/-- The `as u8` view of a `CellState` (`Dead = 0`, `Alive = 1`). -/
def CellState.toNat : CellState → Nat
  | .Dead => 0
  | .Alive => 1

/-- The state flip performed by `Universe::toggle_cells_at`
(`src/universe.rs` lines 51–54). -/
def CellState.toggled : CellState → CellState
  | .Dead => .Alive
  | .Alive => .Dead

/-- Source `CellData` from `src/universe.rs` lines 17–21; the Bevy `Entity` handle
is modelled as an opaque `Option Nat`. -/
structure CellData where
  entity : Option Nat
  state : CellState
deriving DecidableEq, Repr

/-- Source `SizeInt` from `src/utils.rs`: a `u32` pair. -/
structure SizeInt where
  width : Nat
  height : Nat
deriving DecidableEq, Repr

/-- Source `Position` from `src/utils.rs`: a `u32` pair. -/
structure Position where
  x : Nat
  y : Nat
deriving DecidableEq, Repr

/-- Source `Universe` from `src/universe.rs` lines 24–28: a stored size and a
row-major grid `cells[y][x]`. -/
structure Universe where
  size : SizeInt
  cells : List (List CellData)
deriving DecidableEq, Repr

/-- The slot read `self.cells[y][x]` (rows indexed first); out-of-range
reads, which panic in Rust, default to a dead slot — every use below is
guarded so the default is never consulted. -/
def cellAt (g : List (List CellData)) (y x : Nat) : CellData :=
  (g.getD y []).getD x ⟨none, .Dead⟩

/-- Source `Universe::new` (`src/universe.rs` lines 30–32). -/
def Universe.new (size : SizeInt) (cells : List (List CellData)) : Universe :=
  ⟨size, cells⟩

/-- Source `Universe::dead` (`src/universe.rs` lines 33–47): an all-dead grid. -/
def Universe.dead (size : SizeInt) : Universe :=
  Universe.new size
    (List.replicate size.height (List.replicate size.width ⟨none, CellState.Dead⟩))

/-- Source `Universe::size` (`src/universe.rs` lines 73–75): the dimensions are
computed from the vectors (`cells[0].len()`, `cells.len()`), not read from
the stored `size` field.  Named `gridSize` because the structure field is
already called `size`. -/
def Universe.gridSize (u : Universe) : SizeInt :=
  ⟨(u.cells.headD []).length, u.cells.length⟩

/-- Source `Universe::toggle_cells_at` (`src/universe.rs` lines 48–56): flip the
state of each addressed slot in place.  The Rust `Vec` index panics with an
index-out-of-bounds error when `y ≥ cells.len()` or `x ≥ cells[y].len()`;
the panic is modelled as `Except.error`. -/
def Universe.toggle_cells_at (u : Universe) (positions : List (Nat × Nat)) :
    Except String Universe :=
  positions.foldlM
    (fun (u : Universe) p =>
      if p.2 < u.cells.length then
        if p.1 < (u.cells.getD p.2 []).length then
          let cell := cellAt u.cells p.2 p.1
          Except.ok { u with
            cells := u.cells.set p.2 ((u.cells.getD p.2 []).set p.1
              ⟨cell.entity, cell.state.toggled⟩) }
        else Except.error "index out of bounds"
      else Except.error "index out of bounds")
    u

/-- Source `Universe::live_neighbor_count` (`src/universe.rs` lines 76–93): sum the
states of the eight toroidally wrapped neighbour slots, iterating the delta
lists `[height-1, 0, 1]` and `[width-1, 0, 1]` and skipping the `(0, 0)`
pair. -/
def Universe.live_neighbor_count (u : Universe) (pos : Position) : Nat :=
  let size := u.gridSize
  [size.height - 1, 0, 1].foldl
    (fun count delta_row =>
      [size.width - 1, 0, 1].foldl
        (fun count delta_col =>
          if delta_row = 0 ∧ delta_col = 0 then count
          else
            count + (cellAt u.cells ((pos.y + delta_row) % size.height)
              ((pos.x + delta_col) % size.width)).state.toNat)
        count)
    0

/-- The next state of one slot, computed by the match of `Universe::tick`
(`src/universe.rs` lines 106–119) from the pre-tick snapshot `u`: alive
slots survive exactly when their live-neighbour count is in `allowed`, dead
slots are born exactly when their count is in `birth`. -/
def nextCellData (u : Universe) (allowed birth : List Nat) (y x : Nat) : CellData :=
  let cell := cellAt u.cells y x
  let live_neighbors := u.live_neighbor_count ⟨x, y⟩
  { entity := cell.entity
    state :=
      match cell.state with
      | .Alive => if live_neighbors ∈ allowed then .Alive else .Dead
      | .Dead => if live_neighbors ∈ birth then .Alive else .Dead }

/-- The buffer write `next[y][x] = next_cell` of `Universe::tick` (line
121): replace slot `(y, x)` of the grid, leaving everything else intact (a
Rust `Vec` write to an in-range index; `List.set` is a no-op out of range,
and every write below is within range). -/
def writeCell (g : List (List CellData)) (y x : Nat) (c : CellData) : List (List CellData) :=
  g.set y ((g.getD y []).set x c)

/-- Source `Universe::tick` (`src/universe.rs` lines 100–126): clone the grid into
`next`, overwrite every slot `(y, x)` for `y in 0..height`, `x in 0..width`
with its next state computed from the pre-tick snapshot, then replace
`self.cells` with the buffer.  The stored `size` field is untouched. -/
def Universe.tick (u : Universe) (allowed birth : List Nat) : Universe :=
  let size := u.gridSize
  let next := (List.range size.height).foldl
    (fun g y =>
      (List.range size.width).foldl
        (fun g x => writeCell g y x (nextCellData u allowed birth y x)) g)
    u.cells
  { size := u.size, cells := next }

/-- Modelled from the spec: the neighbour-count formula of spec §4.2 — the
sum of the states of the slots `((x+dx) mod width, (y+dy) mod height)` for
the eight signed offsets `dx, dy ∈ {-1,0,1}` without `(0,0)` — stated with
signed arithmetic, for comparison with `live_neighbor_count`. -/
def toroidalNeighborSum (u : Universe) (pos : Position) : Nat :=
  let w : Int := u.gridSize.width
  let h : Int := u.gridSize.height
  ((([-1, 0, 1] : List Int).flatMap fun dy =>
    (([-1, 0, 1] : List Int).filterMap fun dx =>
      if dx = 0 ∧ dy = 0 then none
      else some ((cellAt u.cells (((pos.y : Int) + dy) % h).toNat
        (((pos.x : Int) + dx) % w).toNat).state.toNat))).sum)

/-- The life/death content of a grid, with the engine handles erased. -/
def statesOf (u : Universe) : List (List CellState) :=
  u.cells.map fun row => row.map fun c => c.state

/-- A well-formed (rectangular) grid: every row has the width reported by
`gridSize`. -/
def WF (u : Universe) : Prop :=
  ∀ y < u.cells.length, (u.cells.getD y []).length = u.gridSize.width

instance (u : Universe) : Decidable (WF u) := by
  unfold WF; infer_instance

/-- No live cell anywhere in the grid. -/
def allDead (u : Universe) : Prop :=
  ∀ y < u.cells.length, ∀ x < (u.cells.getD y []).length,
    (cellAt u.cells y x).state = CellState.Dead

instance (u : Universe) : Decidable (allDead u) := by
  unfold allDead; infer_instance

end Bounded

namespace Unbounded

lemma mem_rangeInt {lo hi a : Int} : a ∈ rangeInt lo hi ↔ lo ≤ a ∧ a < hi := by
  simp only [rangeInt, List.mem_map, List.mem_range]
  constructor
  · rintro ⟨i, hi, rfl⟩; omega
  · rintro ⟨h1, h2⟩; exact ⟨(a - lo).toNat, by omega, by omega⟩

lemma nodup_rangeInt (lo hi : Int) : (rangeInt lo hi).Nodup :=
  (List.nodup_range _).map fun a b h => by omega

lemma length_rangeInt (lo hi : Int) : (rangeInt lo hi).length = (hi - lo).toNat := by
  simp [rangeInt]

/-- Membership in the neighbour list is Chebyshev distance exactly 1. -/
lemma Position.mem_neighbors {p q : Position} :
    q ∈ p.neighbors ↔ q ≠ p ∧ q.x - p.x ≤ 1 ∧ p.x - q.x ≤ 1 ∧ q.y - p.y ≤ 1 ∧ p.y - q.y ≤ 1 := by
  simp only [neighbors, List.mem_flatMap, List.mem_filterMap, mem_rangeInt]
  constructor
  · rintro ⟨y, hy, x, hx, hq⟩
    split at hq
    · simp at hq
    · rename_i hcen
      rw [Option.some_inj] at hq
      subst hq
      simp only [ne_eq]
      refine ⟨?_, by omega, by omega, by omega, by omega⟩
      intro hqp
      apply hcen
      cases p
      cases hqp
      exact ⟨rfl, rfl⟩
  · rintro ⟨hne, h1, h2, h3, h4⟩
    refine ⟨q.y, by omega, q.x, by omega, ?_⟩
    have : ¬(q.x = p.x ∧ q.y = p.y) := by
      intro ⟨ha, hb⟩
      exact hne (by cases q; cases p; simp_all)
    simp only [this, if_false]

/-- A position is never its own neighbour. -/
lemma Position.not_mem_neighbors_self (p : Position) : p ∉ p.neighbors := by
  rw [Position.mem_neighbors]; simp

/-- Neighbourhood is symmetric. -/
lemma Position.mem_neighbors_comm {p q : Position} : q ∈ p.neighbors ↔ p ∈ q.neighbors := by
  rw [Position.mem_neighbors, Position.mem_neighbors]
  constructor <;> rintro ⟨h, h1, h2, h3, h4⟩ <;>
    exact ⟨fun hh => h hh.symm, by omega, by omega, by omega, by omega⟩

/-- Characterisation of the inner neighbour loop.  Starting from buffer `n0`
and visited list `v0` such that a dead position is in `n0` exactly when it
was already visited and satisfies the birth rule, folding the loop body over
any candidate list `ns` visits exactly the dead members of `ns` not yet
visited, keeps `visited` duplicate-free, and puts a dead position in the
buffer exactly when it is visited and satisfies the birth rule. -/
lemma processNeighbors_spec (cells : Cells) (birth : List Nat) :
    ∀ (ns : List Position) (n0 : Cells) (v0 : List Position),
      (∀ x, x ∉ cells → (x ∈ n0 ↔ (x ∈ v0 ∧ liveNeighborCount cells x ∈ birth))) →
      v0.Nodup →
      (∀ v, v ∈ (ns.foldl (processNeighbor cells birth) ⟨n0, v0⟩).visited ↔
          (v ∈ v0 ∨ (v ∉ cells ∧ v ∈ ns)))
      ∧ (∀ q, q ∈ (ns.foldl (processNeighbor cells birth) ⟨n0, v0⟩).next ↔
          (q ∈ n0 ∨ (q ∉ cells ∧ q ∈ ns ∧ liveNeighborCount cells q ∈ birth)))
      ∧ (ns.foldl (processNeighbor cells birth) ⟨n0, v0⟩).visited.Nodup := by
  intro ns
  induction ns with
  | nil =>
    intro n0 v0 hdead hnd
    exact ⟨fun v => by simp, fun q => by simp, hnd⟩
  | cons np rest ih =>
    intro n0 v0 hdead hnd
    simp only [List.foldl_cons]
    by_cases hskip : np ∈ v0 ∨ np ∈ cells
    · have hpn : processNeighbor cells birth ⟨n0, v0⟩ np = ⟨n0, v0⟩ := by
        simp [processNeighbor, hskip]
      rw [hpn]
      obtain ⟨h1, h2, h3⟩ := ih n0 v0 hdead hnd
      refine ⟨fun v => ?_, fun q => ?_, h3⟩
      · rw [h1 v]
        constructor
        · rintro (h | ⟨hc, hr⟩)
          · exact Or.inl h
          · exact Or.inr ⟨hc, List.mem_cons_of_mem _ hr⟩
        · rintro (h | ⟨hc, hr⟩)
          · exact Or.inl h
          · rcases List.mem_cons.1 hr with rfl | hr
            · rcases hskip with h' | h'
              · exact Or.inl h'
              · exact absurd h' hc
            · exact Or.inr ⟨hc, hr⟩
      · rw [h2 q]
        constructor
        · rintro (h | ⟨hc, hr, hb⟩)
          · exact Or.inl h
          · exact Or.inr ⟨hc, List.mem_cons_of_mem _ hr, hb⟩
        · rintro (h | ⟨hc, hr, hb⟩)
          · exact Or.inl h
          · rcases List.mem_cons.1 hr with rfl | hr
            · rcases hskip with h' | h'
              · exact Or.inl ((hdead q hc).2 ⟨h', hb⟩)
              · exact absurd h' hc
            · exact Or.inr ⟨hc, hr, hb⟩
    · push_neg at hskip
      obtain ⟨hnv, hnc⟩ := hskip
      have hpn : processNeighbor cells birth ⟨n0, v0⟩ np =
          ⟨if np ∉ cells ∧ liveNeighborCount cells np ∈ birth then insert np n0 else n0,
           v0 ++ [np]⟩ := by
        simp only [processNeighbor]
        rw [if_neg (by simp [hnv, hnc])]
      rw [hpn]
      have hnd' : (v0 ++ [np]).Nodup := by simp [List.nodup_append, hnd, hnv]
      have hdead' : ∀ x, x ∉ cells →
          (x ∈ (if np ∉ cells ∧ liveNeighborCount cells np ∈ birth then insert np n0 else n0) ↔
            (x ∈ v0 ++ [np] ∧ liveNeighborCount cells x ∈ birth)) := by
        intro x hx
        by_cases hb : liveNeighborCount cells np ∈ birth
        · rw [if_pos ⟨hnc, hb⟩]
          simp only [Finset.mem_insert, List.mem_append, List.mem_singleton, List.mem_cons,
            List.not_mem_nil, or_false]
          constructor
          · rintro (rfl | h)
            · exact ⟨Or.inr rfl, hb⟩
            · obtain ⟨h1, h2⟩ := (hdead x hx).1 h
              exact ⟨Or.inl h1, h2⟩
          · rintro ⟨h1 | rfl, h2⟩
            · exact Or.inr ((hdead x hx).2 ⟨h1, h2⟩)
            · exact Or.inl rfl
        · rw [if_neg (by intro h; exact hb h.2)]
          rw [hdead x hx]
          simp only [List.mem_append, List.mem_singleton, List.mem_cons, List.not_mem_nil,
            or_false]
          constructor
          · rintro ⟨h1, h2⟩
            exact ⟨Or.inl h1, h2⟩
          · rintro ⟨h1 | rfl, h2⟩
            · exact ⟨h1, h2⟩
            · exact absurd h2 hb
      obtain ⟨h1, h2, h3⟩ := ih _ _ hdead' hnd'
      refine ⟨fun v => ?_, fun q => ?_, h3⟩
      · rw [h1 v]
        simp only [List.mem_append, List.mem_singleton, List.mem_cons, List.not_mem_nil,
          or_false]
        constructor
        · rintro ((h | rfl) | ⟨hc, hr⟩)
          · exact Or.inl h
          · exact Or.inr ⟨hnc, Or.inl rfl⟩
          · exact Or.inr ⟨hc, Or.inr hr⟩
        · rintro (h | ⟨hc, rfl | hr⟩)
          · exact Or.inl (Or.inl h)
          · exact Or.inl (Or.inr rfl)
          · exact Or.inr ⟨hc, hr⟩
      · rw [h2 q]
        by_cases hb : liveNeighborCount cells np ∈ birth
        · rw [if_pos ⟨hnc, hb⟩]
          simp only [Finset.mem_insert, List.mem_cons]
          constructor
          · rintro ((rfl | h) | ⟨hc, hr, hb'⟩)
            · exact Or.inr ⟨hnc, Or.inl rfl, hb⟩
            · exact Or.inl h
            · exact Or.inr ⟨hc, Or.inr hr, hb'⟩
          · rintro (h | ⟨hc, rfl | hr, hb'⟩)
            · exact Or.inl (Or.inr h)
            · exact Or.inl (Or.inl rfl)
            · exact Or.inr ⟨hc, hr, hb'⟩
        · rw [if_neg (by intro h; exact hb h.2)]
          simp only [List.mem_cons]
          constructor
          · rintro (h | ⟨hc, hr, hb'⟩)
            · exact Or.inl h
            · exact Or.inr ⟨hc, Or.inr hr, hb'⟩
          · rintro (h | ⟨hc, rfl | hr, hb'⟩)
            · exact Or.inl h
            · exact absurd hb' hb
            · exact Or.inr ⟨hc, hr, hb'⟩

lemma exists_mem_append_singleton {l : List Position} {a : Position} {P : Position → Prop} :
    (∃ q ∈ l ++ [a], P q) ↔ (∃ q ∈ l, P q) ∨ P a := by
  constructor
  · rintro ⟨q, hq, hPq⟩
    rcases List.mem_append.1 hq with h | h
    · exact Or.inl ⟨q, h, hPq⟩
    · rw [List.mem_singleton] at h
      subst h
      exact Or.inr hPq
  · rintro (⟨q, hq, hPq⟩ | hPa)
    · exact ⟨q, List.mem_append_left _ hq, hPq⟩
    · exact ⟨a, List.mem_append_right _ (List.mem_singleton.2 rfl), hPa⟩

/-- One step of the outer loop preserves the tick invariant. -/
lemma processCell_inv {cells : Cells} {allowed birth : List Nat} {done : List Position}
    {s : TickState} {p : Position} (hp : p ∈ cells)
    (hinv : TickInv cells allowed birth done s) :
    TickInv cells allowed birth (done ++ [p]) (processCell cells allowed birth s p) := by
  obtain ⟨hdone, hvis, hnext, hnd⟩ := hinv
  have hdone' : ∀ q ∈ done ++ [p], q ∈ cells := by
    intro q hq
    rcases List.mem_append.1 hq with h | h
    · exact hdone q h
    · rw [List.mem_singleton] at h
      subst h
      exact hp
  by_cases hv : p ∈ s.visited
  · -- loop body skipped: p was already visited, hence already processed
    have hpd : p ∈ done := by
      rcases (hvis p).1 hv with h | ⟨hc, _⟩
      · exact h
      · exact absurd hp hc
    have hps : processCell cells allowed birth s p = s := by
      simp [processCell, hv]
    rw [hps]
    refine ⟨hdone', fun v => ?_, fun q => ?_, hnd⟩
    · rw [hvis v]
      simp only [List.mem_append, List.mem_singleton]
      constructor
      · rintro (h | ⟨hc, q', hq', hNp⟩)
        · exact Or.inl (Or.inl h)
        · exact Or.inr ⟨hc, q', Or.inl hq', hNp⟩
      · rintro ((h | rfl) | ⟨hc, q', hq' | rfl, hNp⟩)
        · exact Or.inl h
        · exact Or.inl hpd
        · exact Or.inr ⟨hc, q', hq', hNp⟩
        · exact Or.inr ⟨hc, q', hpd, hNp⟩
    · rw [hnext q]
      simp only [List.mem_append, List.mem_singleton]
      constructor
      · rintro (⟨hc, hA⟩ | ⟨hc, ⟨q', hq', hNp⟩, hB⟩)
        · refine Or.inl ⟨hc, fun hq => hA ?_⟩
          rcases hq with h | rfl
          · exact h
          · exact hpd
        · exact Or.inr ⟨hc, ⟨q', Or.inl hq', hNp⟩, hB⟩
      · rintro (⟨hc, hA⟩ | ⟨hc, ⟨q', hq' | rfl, hNp⟩, hB⟩)
        · exact Or.inl ⟨hc, fun hq => hA (Or.inl hq)⟩
        · exact Or.inr ⟨hc, ⟨q', hq', hNp⟩, hB⟩
        · exact Or.inr ⟨hc, ⟨q', hpd, hNp⟩, hB⟩
  · -- loop body runs
    have hpd : p ∉ done := fun h => hv ((hvis p).2 (Or.inl h))
    have hdead1 : ∀ x, x ∉ cells →
        (x ∈ (if liveNeighborCount cells p ∉ allowed then s.next.erase p else s.next) ↔
          (x ∈ s.visited ∧ liveNeighborCount cells x ∈ birth)) := by
      intro x hx
      have hxp : x ≠ p := fun h => hx (h ▸ hp)
      have hx1 : x ∈ (if liveNeighborCount cells p ∉ allowed then s.next.erase p else s.next) ↔
          x ∈ s.next := by
        split
        · exact ⟨fun h => (Finset.mem_erase.1 h).2, fun h => Finset.mem_erase.2 ⟨hxp, h⟩⟩
        · exact Iff.rfl
      have hxv : x ∈ s.visited ↔ (∃ q ∈ done, x ∈ q.neighbors) := by
        rw [hvis x]
        constructor
        · rintro (h | ⟨_, hE⟩)
          · exact absurd (hdone x h) hx
          · exact hE
        · exact fun hE => Or.inr ⟨hx, hE⟩
      rw [hx1, hnext x, hxv]
      constructor
      · rintro (⟨hc, _⟩ | ⟨_, hE, hB⟩)
        · exact absurd hc hx
        · exact ⟨hE, hB⟩
      · rintro ⟨hE, hB⟩
        exact Or.inr ⟨hx, hE, hB⟩
    obtain ⟨h1, h2, h3⟩ := processNeighbors_spec cells birth p.neighbors
      (if liveNeighborCount cells p ∉ allowed then s.next.erase p else s.next) s.visited
      hdead1 hnd
    have hps : processCell cells allowed birth s p =
        ⟨(p.neighbors.foldl (processNeighbor cells birth)
            ⟨if liveNeighborCount cells p ∉ allowed then s.next.erase p else s.next,
              s.visited⟩).next,
         (p.neighbors.foldl (processNeighbor cells birth)
            ⟨if liveNeighborCount cells p ∉ allowed then s.next.erase p else s.next,
              s.visited⟩).visited ++ [p]⟩ := by
      simp only [processCell, if_neg hv]
    rw [hps]
    refine ⟨hdone', fun v => ?_, fun q => ?_, ?_⟩
    · -- visited characterisation
      simp only [List.mem_append, List.mem_singleton]
      rw [h1 v, hvis v]
      constructor
      · rintro (((hvd | ⟨hc, q', hq', hNp⟩) | ⟨hc, hNp⟩) | rfl)
        · exact Or.inl (Or.inl hvd)
        · exact Or.inr ⟨hc, q', Or.inl hq', hNp⟩
        · exact Or.inr ⟨hc, p, Or.inr rfl, hNp⟩
        · exact Or.inl (Or.inr rfl)
      · rintro ((hvd | rfl) | ⟨hc, q', hq' | rfl, hNp⟩)
        · exact Or.inl (Or.inl (Or.inl hvd))
        · exact Or.inr rfl
        · exact Or.inl (Or.inl (Or.inr ⟨hc, q', hq', hNp⟩))
        · exact Or.inl (Or.inr ⟨hc, hNp⟩)
    · -- next-generation characterisation
      simp only [List.mem_append, List.mem_singleton]
      rw [h2 q]
      by_cases hqc : q ∈ cells
      · have hq1 : q ∈ (if liveNeighborCount cells p ∉ allowed then s.next.erase p else s.next)
            ∨ (q ∉ cells ∧ q ∈ p.neighbors ∧ liveNeighborCount cells q ∈ birth) ↔
            q ∈ (if liveNeighborCount cells p ∉ allowed then s.next.erase p else s.next) := by
          constructor
          · rintro (h | ⟨hc, _⟩)
            · exact h
            · exact absurd hqc hc
          · exact Or.inl
        rw [hq1]
        by_cases hqp : q = p
        · subst hqp
          have hqn : q ∈ s.next := (hnext q).2 (Or.inl ⟨hqc, fun h => absurd h hpd⟩)
          by_cases hA : liveNeighborCount cells q ∈ allowed
          · rw [if_neg (by simpa using hA)]
            constructor
            · intro _
              exact Or.inl ⟨hqc, fun _ => hA⟩
            · intro _
              exact hqn
          · rw [if_pos (by simpa using hA)]
            constructor
            · intro h
              exact absurd rfl (Finset.mem_erase.1 h).1
            · rintro (⟨_, hf⟩ | ⟨hc, _⟩)
              · exact absurd (hf (Or.inr rfl)) hA
              · exact absurd hqc hc
        · have hq2 : q ∈ (if liveNeighborCount cells p ∉ allowed then s.next.erase p
              else s.next) ↔ q ∈ s.next := by
            split
            · exact ⟨fun h => (Finset.mem_erase.1 h).2, fun h => Finset.mem_erase.2 ⟨hqp, h⟩⟩
            · exact Iff.rfl
          rw [hq2, hnext q]
          constructor
          · rintro (⟨hc, hA⟩ | ⟨hc, _⟩)
            · refine Or.inl ⟨hc, fun hq => hA ?_⟩
              rcases hq with h | rfl
              · exact h
              · exact absurd rfl hqp
            · exact absurd hqc hc
          · rintro (⟨hc, hA⟩ | ⟨hc, _⟩)
            · exact Or.inl ⟨hc, fun hq => hA (Or.inl hq)⟩
            · exact absurd hqc hc
      · have hq1 := hdead1 q hqc
        have hqv : q ∈ s.visited ↔ (∃ q' ∈ done, q ∈ q'.neighbors) := by
          rw [hvis q]
          constructor
          · rintro (h | ⟨_, hE⟩)
            · exact absurd (hdone q h) hqc
            · exact hE
          · exact fun hE => Or.inr ⟨hqc, hE⟩
        rw [hq1, hqv]
        constructor
        · rintro (⟨⟨q', hq', hNp⟩, hB⟩ | ⟨_, hNp, hB⟩)
          · exact Or.inr ⟨hqc, ⟨q', Or.inl hq', hNp⟩, hB⟩
          · exact Or.inr ⟨hqc, ⟨p, Or.inr rfl, hNp⟩, hB⟩
        · rintro (⟨hc, _⟩ | ⟨_, ⟨q', hq' | rfl, hNp⟩, hB⟩)
          · exact absurd hc hqc
          · exact Or.inl ⟨⟨q', hq', hNp⟩, hB⟩
          · exact Or.inr ⟨hqc, hNp, hB⟩
    · -- visited stays duplicate-free
      have hpf : p ∉ (p.neighbors.foldl (processNeighbor cells birth)
          ⟨if liveNeighborCount cells p ∉ allowed then s.next.erase p else s.next,
            s.visited⟩).visited := by
        rw [h1 p]
        rintro (h | ⟨hc, _⟩)
        · exact hv h
        · exact hc hp
      rw [List.nodup_append]
      refine ⟨h3, List.nodup_singleton _, ?_⟩
      intro a ha hpa
      rw [List.mem_singleton] at hpa
      subst hpa
      exact hpf ha

/-- Folding the outer loop over any list of alive cells extends the invariant. -/
lemma foldl_processCell_inv {cells : Cells} {allowed birth : List Nat} :
    ∀ (order done : List Position) (s : TickState),
      (∀ q ∈ order, q ∈ cells) → TickInv cells allowed birth done s →
      TickInv cells allowed birth (done ++ order)
        (order.foldl (processCell cells allowed birth) s) := by
  intro order
  induction order with
  | nil =>
    intro done s _ hinv
    simpa using hinv
  | cons p rest ih =>
    intro done s horder hinv
    have hp : p ∈ cells := horder p (List.mem_cons_self p rest)
    have hstep := processCell_inv hp hinv
    have hrest := ih (done ++ [p]) (processCell cells allowed birth s p)
      (fun q hq => horder q (List.mem_cons_of_mem _ hq)) hstep
    simpa [List.append_assoc] using hrest

/-- The invariant holds before the outer loop starts. -/
lemma tickInv_init (cells : Cells) (allowed birth : List Nat) :
    TickInv cells allowed birth [] ⟨cells, []⟩ := by
  refine ⟨by simp, fun v => by simp, fun p => by simp, List.nodup_nil⟩

/-- The central characterisation of the unbounded `tick`: for any iteration
order enumerating the live cells, the next generation is exactly `SpecNext`
(computed entirely from the pre-tick snapshot), the visited list is
duplicate-free, and the dead positions visited are exactly the Moore
neighbours of alive cells. -/
lemma tick_characterisation (cells : Cells) (allowed birth : List Nat) (order : List Position)
    (horder : ∀ p, p ∈ order ↔ p ∈ cells) :
    (∀ p, p ∈ tick cells allowed birth order ↔ SpecNext cells allowed birth p)
    ∧ (tickAux cells allowed birth order).visited.Nodup
    ∧ (∀ v, v ∉ cells →
        ((v ∈ (tickAux cells allowed birth order).visited) ↔ ∃ q ∈ cells, v ∈ q.neighbors)) := by
  have hinv := foldl_processCell_inv order [] ⟨cells, []⟩
    (fun q hq => (horder q).1 hq) (tickInv_init cells allowed birth)
  rw [List.nil_append] at hinv
  obtain ⟨hdone, hvis, hnext, hnd⟩ := hinv
  have hEq : ∀ v, (∃ q ∈ order, v ∈ q.neighbors) ↔ (∃ q ∈ cells, v ∈ q.neighbors) := by
    intro v
    constructor
    · rintro ⟨q, hq, h⟩
      exact ⟨q, (horder q).1 hq, h⟩
    · rintro ⟨q, hq, h⟩
      exact ⟨q, (horder q).2 hq, h⟩
  refine ⟨fun p => ?_, hnd, fun v hvc => ?_⟩
  · show p ∈ (tickAux cells allowed birth order).next ↔ _
    rw [tickAux, hnext p, SpecNext]
    constructor
    · rintro (⟨hc, hA⟩ | ⟨hc, hE', hB⟩)
      · exact Or.inl ⟨hc, hA ((horder p).2 hc)⟩
      · exact Or.inr ⟨hc, (hEq p).1 hE', hB⟩
    · rintro (⟨hc, hA⟩ | ⟨hc, hE', hB⟩)
      · exact Or.inl ⟨hc, fun _ => hA⟩
      · exact Or.inr ⟨hc, (hEq p).2 hE', hB⟩
  · rw [tickAux, hvis v]
    constructor
    · rintro (h | ⟨_, hE'⟩)
      · exact absurd ((horder v).1 h) hvc
      · exact (hEq v).1 hE'
    · intro hE'
      exact Or.inr ⟨hvc, (hEq v).2 hE'⟩

/-- A tick of the empty universe (whose hash-map iteration order is
necessarily the empty list) yields the empty universe. -/
lemma tick_empty (allowed birth : List Nat) : tick ∅ allowed birth [] = ∅ := rfl

/-- Toggling one position twice restores the live-cell set. -/
lemma toggle_toggle_single (cells : Cells) (p : Position) :
    toggle_cells_at (toggle_cells_at cells [p]) [p] = cells := by
  simp only [toggle_cells_at, List.foldl_cons, List.foldl_nil]
  by_cases h : p ∈ cells
  · rw [if_pos h, if_neg (Finset.not_mem_erase p cells)]
    exact Finset.insert_erase h
  · rw [if_neg h, if_pos (Finset.mem_insert_self p cells)]
    exact Finset.erase_insert h

/-- Membership after the random-seeding fold of `generate`. -/
lemma generate_mem_aux (life_chance : ℚ) (draws : Nat → ℚ) :
    ∀ (l : List (Nat × Position)) (acc : Cells) (q : Position),
      q ∈ l.foldl
          (fun cells ip => if draws ip.1 < life_chance then insert ip.2 cells else cells) acc ↔
        (q ∈ acc ∨ ∃ ip ∈ l, ip.2 = q ∧ draws ip.1 < life_chance) := by
  intro l
  induction l with
  | nil =>
    intro acc q
    simp
  | cons a rest ih =>
    intro acc q
    simp only [List.foldl_cons]
    rw [ih]
    by_cases h : draws a.1 < life_chance
    · rw [if_pos h]
      simp only [Finset.mem_insert, List.mem_cons]
      constructor
      · rintro ((rfl | hq) | ⟨ip, hip, rfl, hd⟩)
        · exact Or.inr ⟨a, Or.inl rfl, rfl, h⟩
        · exact Or.inl hq
        · exact Or.inr ⟨ip, Or.inr hip, rfl, hd⟩
      · rintro (hq | ⟨ip, rfl | hip, rfl, hd⟩)
        · exact Or.inl (Or.inr hq)
        · exact Or.inl (Or.inl rfl)
        · exact Or.inr ⟨ip, hip, rfl, hd⟩
    · rw [if_neg h]
      simp only [List.mem_cons]
      constructor
      · rintro (hq | ⟨ip, hip, rfl, hd⟩)
        · exact Or.inl hq
        · exact Or.inr ⟨ip, Or.inr hip, rfl, hd⟩
      · rintro (hq | ⟨ip, rfl | hip, rfl, hd⟩)
        · exact Or.inl hq
        · exact absurd hd h
        · exact Or.inr ⟨ip, hip, rfl, hd⟩

/-- The generation loops visit exactly the half-open centred rectangle
`[-⌊w/2⌋, ⌊w/2⌋) × [-⌊h/2⌋, ⌊h/2⌋)`. -/
lemma mem_generatePositions {size : SizeInt} {p : Position} :
    p ∈ generatePositions size ↔
      (-halfOf size.width ≤ p.x ∧ p.x < halfOf size.width ∧
       -halfOf size.height ≤ p.y ∧ p.y < halfOf size.height) := by
  simp only [generatePositions, List.mem_flatMap, List.mem_map, mem_rangeInt]
  constructor
  · rintro ⟨y, hy, x, hx, rfl⟩
    exact ⟨hx.1, hx.2, hy.1, hy.2⟩
  · rintro ⟨h1, h2, h3, h4⟩
    exact ⟨p.y, ⟨h3, h4⟩, p.x, ⟨h1, h2⟩, by cases p; rfl⟩

/-- Row-major enumeration of a rectangle has no duplicates. -/
lemma nodup_grid (xs : List Int) (hxs : xs.Nodup) :
    ∀ (ys : List Int), ys.Nodup →
      (ys.flatMap fun y => xs.map fun x => (⟨x, y⟩ : Position)).Nodup := by
  intro ys
  induction ys with
  | nil =>
    intro _
    simp
  | cons y rest ih =>
    intro hnd
    rw [List.flatMap_cons, List.nodup_append]
    refine ⟨hxs.map fun a b h => by injection h, ih (List.Nodup.of_cons hnd), ?_⟩
    intro a ha hb
    rw [List.mem_map] at ha
    obtain ⟨x, _, rfl⟩ := ha
    rw [List.mem_flatMap] at hb
    obtain ⟨y', hy', hmem⟩ := hb
    rw [List.mem_map] at hmem
    obtain ⟨x', _, heq⟩ := hmem
    have : y' = y := by injection heq
    subst this
    exact (List.nodup_cons.1 hnd).1 hy'

lemma nodup_generatePositions (size : SizeInt) : (generatePositions size).Nodup :=
  nodup_grid _ (nodup_rangeInt _ _) _ (nodup_rangeInt _ _)

/-- The generation loops visit `2⌊h/2⌋ * 2⌊w/2⌋` positions. -/
lemma length_generatePositions (size : SizeInt) :
    (generatePositions size).length =
      (2 * halfOf size.height).toNat * (2 * halfOf size.width).toNat := by
  rw [generatePositions, List.length_flatMap]
  simp only [Function.comp_def]
  have hrep : ((rangeInt (-halfOf size.height) (halfOf size.height)).map
      fun y => ((rangeInt (-halfOf size.width) (halfOf size.width)).map
        fun x => (⟨x, y⟩ : Position)).length) =
      List.replicate (rangeInt (-halfOf size.height) (halfOf size.height)).length
        (2 * halfOf size.width).toNat := by
    rw [List.eq_replicate_iff]
    refine ⟨by rw [List.length_map], ?_⟩
    intro b hb
    rw [List.mem_map] at hb
    obtain ⟨y, _, rfl⟩ := hb
    rw [List.length_map, length_rangeInt]
    congr 1
    ring
  rw [hrep, List.sum_replicate, smul_eq_mul, length_rangeInt]
  have h2 : halfOf size.height - -halfOf size.height = 2 * halfOf size.height := by ring
  rw [h2]

end Unbounded

namespace Bounded

/-- Reading `List.set` through `getD`. -/
lemma getD_set {α : Type} (d : α) (g : List α) (y : Nat) (r : α) (y' : Nat) :
    (g.set y r).getD y' d = if y = y' ∧ y < g.length then r else g.getD y' d := by
  rw [List.getD_eq_getElem?_getD, List.getD_eq_getElem?_getD, List.getElem?_set]
  by_cases h : y = y'
  · subst h
    by_cases hy : y < g.length
    · simp [hy]
    · simp [hy, List.getElem?_eq_none (le_of_not_lt hy)]
  · simp [h]

/-- Reading a slot after one buffer write. -/
lemma cellAt_writeCell (g : List (List CellData)) (y x : Nat) (c : CellData) (y' x' : Nat) :
    cellAt (writeCell g y x c) y' x' =
      if y = y' ∧ x = x' ∧ y < g.length ∧ x < (g.getD y []).length then c
      else cellAt g y' x' := by
  simp only [cellAt, writeCell]
  rw [getD_set]
  by_cases hy : y = y' ∧ y < g.length
  · obtain ⟨rfl, hylt⟩ := hy
    rw [if_pos ⟨rfl, hylt⟩, getD_set]
    by_cases hx : x = x' ∧ x < (g.getD y []).length
    · obtain ⟨rfl, hxlt⟩ := hx
      rw [if_pos ⟨rfl, hxlt⟩, if_pos ⟨rfl, rfl, hylt, hxlt⟩]
    · rw [if_neg hx, if_neg (by tauto)]
  · rw [if_neg hy, if_neg (by tauto)]

/-- Dimensions are unchanged by one buffer write. -/
lemma length_writeCell (g : List (List CellData)) (y x : Nat) (c : CellData) :
    (writeCell g y x c).length = g.length := by
  simp [writeCell]

lemma rowLen_writeCell (g : List (List CellData)) (y x : Nat) (c : CellData) (y' : Nat) :
    ((writeCell g y x c).getD y' []).length = (g.getD y' []).length := by
  rw [writeCell, getD_set]
  by_cases h : y = y' ∧ y < g.length
  · obtain ⟨rfl, _⟩ := h
    rw [if_pos (by tauto), List.length_set]
  · rw [if_neg h]

/-- Reading and dimensions after folding the inner (row) loop of `tick` over
any index list: only row `y` changes, and only at the written indices, each
written value being computed by `F` (independently of the buffer). -/
lemma rowPass_spec (F : Nat → Nat → CellData) (y : Nat) :
    ∀ (xs : List Nat) (g : List (List CellData)),
      ((xs.foldl (fun g x => writeCell g y x (F y x)) g).length = g.length)
      ∧ (∀ y', ((xs.foldl (fun g x => writeCell g y x (F y x)) g).getD y' []).length =
          (g.getD y' []).length)
      ∧ (∀ y' x', cellAt (xs.foldl (fun g x => writeCell g y x (F y x)) g) y' x' =
          if y = y' ∧ x' ∈ xs ∧ y < g.length ∧ x' < (g.getD y []).length then F y x'
          else cellAt g y' x') := by
  intro xs
  induction xs with
  | nil =>
    intro g
    exact ⟨rfl, fun _ => rfl, fun y' x' => by simp⟩
  | cons a rest ih =>
    intro g
    simp only [List.foldl_cons]
    obtain ⟨ihl, ihrow, ihcell⟩ := ih (writeCell g y a (F y a))
    refine ⟨by rw [ihl, length_writeCell], fun y' => by rw [ihrow y', rowLen_writeCell], ?_⟩
    intro y' x'
    rw [ihcell y' x', length_writeCell, rowLen_writeCell, cellAt_writeCell]
    by_cases hc : y = y' ∧ x' ∈ a :: rest ∧ y < g.length ∧ x' < (g.getD y []).length
    · rw [if_pos hc]
      obtain ⟨rfl, hmem, hylt, hxlt⟩ := hc
      rcases List.mem_cons.1 hmem with rfl | hmm
      · by_cases hr : x' ∈ rest
        · rw [if_pos ⟨rfl, hr, hylt, hxlt⟩]
        · rw [if_neg (by tauto), if_pos ⟨rfl, rfl, hylt, hxlt⟩]
      · rw [if_pos ⟨rfl, hmm, hylt, hxlt⟩]
    · rw [if_neg hc]
      have hrest : ¬(y = y' ∧ x' ∈ rest ∧ y < g.length ∧ x' < (g.getD y []).length) := by
        intro ⟨h1, h2, h3, h4⟩
        exact hc ⟨h1, List.mem_cons_of_mem _ h2, h3, h4⟩
      have hone : ¬(y = y' ∧ a = x' ∧ y < g.length ∧ a < (g.getD y []).length) := by
        intro ⟨h1, h2, h3, h4⟩
        exact hc ⟨h1, h2 ▸ List.mem_cons_self a rest, h3, h2 ▸ h4⟩
      rw [if_neg hrest, if_neg hone]

/-- Reading and dimensions after the full double loop of `tick`: dimensions
never change, and every slot addressed by both loops holds the value
computed by `F` from the pre-tick snapshot. -/
lemma gridPass_spec (F : Nat → Nat → CellData) (w : Nat) :
    ∀ (ys : List Nat) (g : List (List CellData)),
      ((ys.foldl (fun g y =>
          (List.range w).foldl (fun g x => writeCell g y x (F y x)) g) g).length = g.length)
      ∧ (∀ y', (((ys.foldl (fun g y =>
          (List.range w).foldl (fun g x => writeCell g y x (F y x)) g) g).getD y' []).length) =
          ((g.getD y' []).length))
      ∧ (∀ y' x', cellAt (ys.foldl (fun g y =>
          (List.range w).foldl (fun g x => writeCell g y x (F y x)) g) g) y' x' =
          if y' ∈ ys ∧ x' < w ∧ y' < g.length ∧ x' < (g.getD y' []).length then F y' x'
          else cellAt g y' x') := by
  intro ys
  induction ys with
  | nil =>
    intro g
    exact ⟨rfl, fun _ => rfl, fun y' x' => by simp⟩
  | cons a rest ih =>
    intro g
    simp only [List.foldl_cons]
    obtain ⟨rl, rrow, rcell⟩ := rowPass_spec F a (List.range w) g
    obtain ⟨il, irow, icell⟩ :=
      ih ((List.range w).foldl (fun g x => writeCell g a x (F a x)) g)
    refine ⟨by rw [il, rl], fun y' => by rw [irow y', rrow y'], ?_⟩
    intro y' x'
    rw [icell y' x', rl, rrow y', rcell y' x']
    simp only [List.mem_range] at *
    by_cases hc : y' ∈ a :: rest ∧ x' < w ∧ y' < g.length ∧ x' < (g.getD y' []).length
    · rw [if_pos hc]
      obtain ⟨hmem, hxw, hylt, hxlt⟩ := hc
      rcases List.mem_cons.1 hmem with rfl | hmm
      · by_cases hr : y' ∈ rest
        · rw [if_pos ⟨hr, hxw, hylt, hxlt⟩]
        · rw [if_neg (by tauto), if_pos ⟨rfl, hxw, hylt, hxlt⟩]
      · rw [if_pos ⟨hmm, hxw, hylt, hxlt⟩]
    · rw [if_neg hc]
      have hrest : ¬(y' ∈ rest ∧ x' < w ∧ y' < g.length ∧ x' < (g.getD y' []).length) := by
        intro ⟨h1, h2, h3, h4⟩
        exact hc ⟨List.mem_cons_of_mem _ h1, h2, h3, h4⟩
      have hone : ¬(a = y' ∧ x' < w ∧ a < g.length ∧ x' < (g.getD a []).length) := by
        intro ⟨h1, h2, h3, h4⟩
        subst h1
        exact hc ⟨List.mem_cons_self a rest, h2, h3, h4⟩
      rw [if_neg hrest, if_neg hone]

/-- The function `tick` leaves dimensions intact and writes every doubly-in-range slot
with its `nextCellData`, computed from the pre-tick snapshot `u`. -/
lemma tick_cells_spec (u : Universe) (a b : List Nat) :
    ((u.tick a b).cells.length = u.cells.length)
    ∧ (∀ y', ((u.tick a b).cells.getD y' []).length = ((u.cells.getD y' []).length))
    ∧ (∀ y x, cellAt (u.tick a b).cells y x =
        if y < u.cells.length ∧ x < u.gridSize.width ∧ x < (u.cells.getD y []).length
        then nextCellData u a b y x
        else cellAt u.cells y x) := by
  obtain ⟨hl, hrow, hcell⟩ :=
    gridPass_spec (nextCellData u a b) u.gridSize.width (List.range u.gridSize.height) u.cells
  have htick : (u.tick a b).cells = (List.range u.gridSize.height).foldl
      (fun g y => (List.range u.gridSize.width).foldl
        (fun g x => writeCell g y x (nextCellData u a b y x)) g) u.cells := rfl
  refine ⟨by rw [htick, hl], fun y' => by rw [htick, hrow y'], ?_⟩
  intro y x
  rw [htick, hcell y x]
  by_cases h : y < u.cells.length ∧ x < u.gridSize.width ∧ x < (u.cells.getD y []).length
  · rw [if_pos h, if_pos ⟨List.mem_range.2 h.1, h.2.1, h.1, h.2.2⟩]
  · rw [if_neg h, if_neg (by
      intro ⟨h1, h2, h3, h4⟩
      exact h ⟨h3, h2, h4⟩)]

/-- The function `tick` does not touch the stored `size` field. -/
lemma tick_size_field (u : Universe) (a b : List Nat) : (u.tick a b).size = u.size := rfl

/-- The function `tick` preserves the engine handle of every slot. -/
lemma tick_entity (u : Universe) (a b : List Nat) (y x : Nat) :
    (cellAt (u.tick a b).cells y x).entity = (cellAt u.cells y x).entity := by
  obtain ⟨_, _, hcell⟩ := tick_cells_spec u a b
  rw [hcell y x]
  split
  · rfl
  · rfl

/-- In a rectangular grid, the state of an in-range slot after `tick`. -/
lemma tick_state (u : Universe) (a b : List Nat) (hWF : WF u) (y x : Nat)
    (hy : y < u.cells.length) (hx : x < u.gridSize.width) :
    (cellAt (u.tick a b).cells y x).state =
      match (cellAt u.cells y x).state with
      | .Alive => if u.live_neighbor_count ⟨x, y⟩ ∈ a then .Alive else .Dead
      | .Dead => if u.live_neighbor_count ⟨x, y⟩ ∈ b then .Alive else .Dead := by
  obtain ⟨_, _, hcell⟩ := tick_cells_spec u a b
  rw [hcell y x, if_pos ⟨hy, hx, by rw [hWF y hy]; exact hx⟩]
  rfl

/-- In an all-dead grid every slot read yields `Dead` (in-range slots by
`allDead`, out-of-range reads by the dead default). -/
lemma state_of_allDead {u : Universe} (hAD : allDead u) (ry rx : Nat) :
    (cellAt u.cells ry rx).state = CellState.Dead := by
  by_cases hry : ry < u.cells.length
  · by_cases hrx : rx < (u.cells.getD ry []).length
    · exact hAD ry hry rx hrx
    · rw [cellAt, List.getD_eq_getElem?_getD, List.getElem?_eq_none (le_of_not_lt hrx)]
      rfl
  · have hempty : u.cells.getD ry [] = [] := by
      rw [List.getD_eq_getElem?_getD, List.getElem?_eq_none (le_of_not_lt hry)]
      rfl
    rw [cellAt, hempty]
    rfl

/-- Every neighbour count in an all-dead grid is zero. -/
lemma live_neighbor_count_allDead {u : Universe} (hAD : allDead u) (pos : Position) :
    u.live_neighbor_count pos = 0 := by
  have hz : ∀ ry rx, (cellAt u.cells ry rx).state.toNat = 0 := by
    intro ry rx
    rw [state_of_allDead hAD]
    rfl
  simp only [Universe.live_neighbor_count, List.foldl_cons, List.foldl_nil, hz,
    Nat.add_zero, ite_self]

/-- Conversion between the `u32` wraparound index of the source and the
signed modulo of the spec formula. -/
lemma wrap_idx (y dn h : Nat) (d : Int) (hd : ((dn : Int) - d) % (h : Int) = 0) :
    (((y : Int) + d) % (h : Int)).toNat = (y + dn) % h := by
  have hdvd : (h : Int) ∣ ((dn : Int) - d) := Int.dvd_of_emod_eq_zero hd
  have hmod : ((y : Int) + d) % (h : Int) = ((y : Int) + dn) % (h : Int) := by
    have heq : ((y : Int) + dn) - ((y : Int) + d) = (dn : Int) - d := by ring
    exact Int.modEq_iff_dvd.2 (by rw [heq]; exact hdvd)
  rw [hmod, show ((y : Int) + (dn : Int)) = ((y + dn : Nat) : Int) by push_cast; ring,
    ← Int.ofNat_emod]
  exact Int.toNat_natCast _

lemma headD_eq_getD {α : Type} (l : List α) (d : α) : l.headD d = l.getD 0 d := by
  cases l <;> rfl

/-- The function `tick` preserves the computed grid dimensions. -/
lemma tick_gridSize (u : Universe) (a b : List Nat) :
    (u.tick a b).gridSize = u.gridSize := by
  obtain ⟨hl, hrow, _⟩ := tick_cells_spec u a b
  have h2 : ((u.tick a b).cells.headD []).length = ((u.cells.headD []).length) := by
    rw [headD_eq_getD, headD_eq_getD, hrow 0]
  simp only [Universe.gridSize, hl, h2]

/-- The function `tick` preserves rectangularity. -/
lemma tick_WF {u : Universe} (a b : List Nat) (hWF : WF u) : WF (u.tick a b) := by
  obtain ⟨hl, hrow, _⟩ := tick_cells_spec u a b
  intro y hy
  rw [hl] at hy
  rw [hrow y, tick_gridSize, hWF y hy]

/-- Provided the birth rule does not allow zero live neighbours, `tick`
preserves deadness of the whole grid. -/
lemma tick_allDead {u : Universe} (a b : List Nat) (hAD : allDead u) (hb : 0 ∉ b) :
    allDead (u.tick a b) := by
  obtain ⟨hl, hrow, hcell⟩ := tick_cells_spec u a b
  intro y hy x hx
  rw [hl] at hy
  rw [hrow y] at hx
  rw [hcell y x]
  by_cases hc : y < u.cells.length ∧ x < u.gridSize.width ∧ x < (u.cells.getD y []).length
  · rw [if_pos hc]
    have hst : (cellAt u.cells y x).state = CellState.Dead := state_of_allDead hAD y x
    have hcnt : u.live_neighbor_count ⟨x, y⟩ = 0 := live_neighbor_count_allDead hAD _
    simp only [nextCellData, hst, hcnt]
    rw [if_neg hb]
  · rw [if_neg hc]
    exact state_of_allDead hAD y x

/-- For a grid at least 2×2, the neighbour count of the source equals the
signed-modulo Moore-neighbourhood formula of the spec at every in-range
position. -/
lemma live_neighbor_count_eq_toroidal (u : Universe) (hw : 2 ≤ u.gridSize.width)
    (hh : 2 ≤ u.gridSize.height) (x y : Nat) :
    u.live_neighbor_count ⟨x, y⟩ = toroidalNeighborSum u ⟨x, y⟩ := by
  obtain ⟨wk, hwk⟩ : ∃ k, u.gridSize.width = k + 2 := ⟨u.gridSize.width - 2, by omega⟩
  obtain ⟨hk, hhk⟩ : ∃ k, u.gridSize.height = k + 2 := ⟨u.gridSize.height - 2, by omega⟩
  have chN : ((hk + 2 : Nat) : Int) = (hk : Int) + 2 := by push_cast; ring
  have cwN : ((wk + 2 : Nat) : Int) = (wk : Int) + 2 := by push_cast; ring
  have esub : ∀ z : Nat, (((z : Int) + -1) % ((hk : Int) + 2)).toNat
      = (z + (hk + 1)) % (hk + 2) := by
    intro z
    have h := wrap_idx z (hk + 1) (hk + 2) (-1) (by
      push_cast
      ring_nf
      exact Int.emod_self)
    rwa [chN] at h
  have esubw : ∀ z : Nat, (((z : Int) + -1) % ((wk : Int) + 2)).toNat
      = (z + (wk + 1)) % (wk + 2) := by
    intro z
    have h := wrap_idx z (wk + 1) (wk + 2) (-1) (by
      push_cast
      ring_nf
      exact Int.emod_self)
    rwa [cwN] at h
  have eidh : ∀ z : Nat, ((z : Int) % ((hk : Int) + 2)).toNat = z % (hk + 2) := by
    intro z
    have h := wrap_idx z 0 (hk + 2) 0 (by simp)
    rw [chN] at h
    simpa using h
  have eidw : ∀ z : Nat, ((z : Int) % ((wk : Int) + 2)).toNat = z % (wk + 2) := by
    intro z
    have h := wrap_idx z 0 (wk + 2) 0 (by simp)
    rw [cwN] at h
    simpa using h
  have eaddh : ∀ z : Nat, (((z : Int) + 1) % ((hk : Int) + 2)).toNat = (z + 1) % (hk + 2) := by
    intro z
    have h := wrap_idx z 1 (hk + 2) 1 (by simp)
    rwa [chN] at h
  have eaddw : ∀ z : Nat, (((z : Int) + 1) % ((wk : Int) + 2)).toNat = (z + 1) % (wk + 2) := by
    intro z
    have h := wrap_idx z 1 (wk + 2) 1 (by simp)
    rwa [cwN] at h
  rw [Universe.live_neighbor_count, toroidalNeighborSum, hwk, hhk]
  simp only [List.foldl_cons, List.foldl_nil, List.flatMap_cons, List.flatMap_nil,
    List.filterMap_cons, List.filterMap_nil, List.append_nil, List.sum_cons, List.sum_nil,
    List.sum_append]
  norm_num
  simp only [esub, esubw, eidh, eidw, eaddh, eaddw]
  omega

lemma toggled_toggled (s : CellState) : s.toggled.toggled = s := by
  cases s <;> rfl

lemma set_getD_self {α : Type} (l : List α) (i : Nat) (d : α) (h : i < l.length) :
    l.set i (l.getD i d) = l := by
  apply List.ext_getElem?
  intro j
  rw [List.getElem?_set]
  by_cases hij : i = j
  · subst hij
    rw [if_pos rfl, if_pos h, List.getD_eq_getElem?_getD, List.getElem?_eq_getElem h]
    rfl
  · rw [if_neg hij]

/-- Unfolding `toggle_cells_at` on a single position, as one bounds-checked write. -/
lemma toggle_single (u : Universe) (x y : Nat) :
    u.toggle_cells_at [(x, y)] =
      if y < u.cells.length then
        if x < (u.cells.getD y []).length then
          Except.ok { u with cells := (writeCell u.cells y x
            ⟨(cellAt u.cells y x).entity, (cellAt u.cells y x).state.toggled⟩) }
        else Except.error "index out of bounds"
      else Except.error "index out of bounds" := by
  show (if y < u.cells.length then
      if x < (u.cells.getD y []).length then
        Except.ok { u with cells := u.cells.set y ((u.cells.getD y []).set x
          ⟨(cellAt u.cells y x).entity, (cellAt u.cells y x).state.toggled⟩) }
      else Except.error "index out of bounds"
    else (Except.error "index out of bounds" : Except String Universe)) >>=
      (fun u => List.foldlM _ u []) = _
  split
  · split
    · rfl
    · rfl
  · rfl

/-- Toggling an in-range position twice restores the grid exactly. -/
lemma toggle_toggle_bounded (u : Universe) (x y : Nat) (hy : y < u.cells.length)
    (hx : x < (u.cells.getD y []).length) :
    (u.toggle_cells_at [(x, y)]).bind (fun u' => u'.toggle_cells_at [(x, y)]) =
      Except.ok u := by
  rw [toggle_single, if_pos hy, if_pos hx]
  show Universe.toggle_cells_at _ [(x, y)] = Except.ok u
  rw [toggle_single]
  rw [if_pos (by rw [length_writeCell]; exact hy)]
  rw [if_pos (by rw [rowLen_writeCell]; exact hx)]
  have hc1 : cellAt (writeCell u.cells y x
      ⟨(cellAt u.cells y x).entity, (cellAt u.cells y x).state.toggled⟩) y x =
      ⟨(cellAt u.cells y x).entity, (cellAt u.cells y x).state.toggled⟩ := by
    rw [cellAt_writeCell, if_pos ⟨rfl, rfl, hy, hx⟩]
  rw [hc1]
  congr 1
  cases u with
  | mk size cells =>
    simp only [Universe.mk.injEq, writeCell]
    refine ⟨trivial, ?_⟩
    rw [getD_set _ _ _ _ _]
    rw [if_pos ⟨rfl, hy⟩, List.set_set, toggled_toggled, List.set_set]
    have : (cellAt cells y x) = (cells.getD y []).getD x ⟨none, CellState.Dead⟩ := rfl
    rw [this, set_getD_self _ _ _ hx, set_getD_self _ _ _ hy]

/-- The life content of `statesOf` rows and slots. -/
lemma statesOf_getD (u : Universe) (y : Nat) :
    (statesOf u).getD y [] = (u.cells.getD y []).map (fun c => c.state) := by
  rw [statesOf, List.getD_eq_getElem?_getD, List.getD_eq_getElem?_getD, List.getElem?_map]
  cases u.cells[y]? <;> rfl

lemma map_state_getD (row : List CellData) (x : Nat) :
    (row.map fun c => c.state).getD x CellState.Dead =
      (row.getD x ⟨none, CellState.Dead⟩).state := by
  rw [List.getD_eq_getElem?_getD, List.getD_eq_getElem?_getD, List.getElem?_map]
  cases row[x]? <;> rfl

lemma statesOf_stateAt (u : Universe) (y x : Nat) :
    ((statesOf u).getD y []).getD x CellState.Dead = (cellAt u.cells y x).state := by
  rw [statesOf_getD, map_state_getD]
  rfl

lemma statesOf_length (u : Universe) : (statesOf u).length = u.cells.length :=
  List.length_map _ _

lemma statesOf_row_length (u : Universe) (y : Nat) :
    ((statesOf u).getD y []).length = (u.cells.getD y []).length := by
  rw [statesOf_getD, List.length_map]

lemma getElem_eq_getD {α : Type} (l : List α) (i : Nat) (d : α) (h : i < l.length) :
    l[i] = l.getD i d := by
  rw [List.getD_eq_getElem?_getD, List.getElem?_eq_getElem h]
  rfl

/-- The next life states depend only on the current life states: two grids
with the same `statesOf` have the same `statesOf` after `tick`. -/
lemma statesOf_tick_congr (u1 u2 : Universe) (a b : List Nat)
    (h : statesOf u1 = statesOf u2) :
    statesOf (u1.tick a b) = statesOf (u2.tick a b) := by
  have hlen : u1.cells.length = u2.cells.length := by
    rw [← statesOf_length, ← statesOf_length, h]
  have hrow : ∀ y, (u1.cells.getD y []).length = (u2.cells.getD y []).length := by
    intro y
    rw [← statesOf_row_length, ← statesOf_row_length, h]
  have hstate : ∀ y x, (cellAt u1.cells y x).state = (cellAt u2.cells y x).state := by
    intro y x
    rw [← statesOf_stateAt, ← statesOf_stateAt, h]
  have hgs : u1.gridSize = u2.gridSize := by
    simp only [Universe.gridSize, headD_eq_getD, hlen, hrow 0]
  have hcnt : ∀ pos, u1.live_neighbor_count pos = u2.live_neighbor_count pos := by
    intro pos
    rw [Universe.live_neighbor_count, Universe.live_neighbor_count, hgs]
    simp only [hstate]
  have hnextst : ∀ y x, (nextCellData u1 a b y x).state = (nextCellData u2 a b y x).state := by
    intro y x
    simp only [nextCellData, hstate y x, hcnt ⟨x, y⟩]
  obtain ⟨hl1, hrow1, hcell1⟩ := tick_cells_spec u1 a b
  obtain ⟨hl2, hrow2, hcell2⟩ := tick_cells_spec u2 a b
  apply List.ext_getElem
  · rw [statesOf_length, statesOf_length, hl1, hl2, hlen]
  intro y h1 h2
  rw [getElem_eq_getD _ _ ([] : List CellState) h1, getElem_eq_getD _ _ ([] : List CellState) h2]
  apply List.ext_getElem
  · rw [statesOf_row_length, statesOf_row_length, hrow1, hrow2, hrow y]
  intro x hx1 hx2
  rw [getElem_eq_getD _ _ CellState.Dead hx1, getElem_eq_getD _ _ CellState.Dead hx2]
  rw [statesOf_stateAt, statesOf_stateAt, hcell1 y x, hcell2 y x]
  by_cases hc : y < u1.cells.length ∧ x < u1.gridSize.width ∧ x < (u1.cells.getD y []).length
  · rw [if_pos hc, if_pos (by
      obtain ⟨a1, a2, a3⟩ := hc
      exact ⟨hlen ▸ a1, hgs ▸ a2, hrow y ▸ a3⟩)]
    exact hnextst y x
  · rw [if_neg hc, if_neg (by
      intro ⟨a1, a2, a3⟩
      exact hc ⟨hlen ▸ a1, hgs ▸ a2, (hrow y).symm ▸ a3⟩)]
    exact hstate y x

end Bounded

/-- C1: for the unbounded universe, `tick` computes the next generation
entirely from the pre-tick snapshot: an alive cell is in the next generation
iff its pre-tick live-neighbour count is in `allowed_neighbors`; a dead
position is in the next generation iff it is a Moore neighbour of some alive
cell and its pre-tick count is in `allowed_neighbors_for_birth` (every other
position stays dead); each dead Moore neighbour of an alive cell is
evaluated exactly once (the visited list is duplicate-free and holds exactly
those positions); the buffer replaces the live set only after the loops
finish. -/
theorem unbounded_tick_spec (cells : Unbounded.Cells) (allowed birth : List Nat)
    (order : List Unbounded.Position) (horder : ∀ p, p ∈ order ↔ p ∈ cells) :
    (∀ p, p ∈ Unbounded.tick cells allowed birth order ↔
      ((p ∈ cells ∧ Unbounded.liveNeighborCount cells p ∈ allowed) ∨
       (p ∉ cells ∧ (∃ q ∈ cells, p ∈ q.neighbors) ∧
         Unbounded.liveNeighborCount cells p ∈ birth)))
    ∧ (Unbounded.tickAux cells allowed birth order).visited.Nodup
    ∧ (∀ v, v ∉ cells →
        ((v ∈ (Unbounded.tickAux cells allowed birth order).visited) ↔
          ∃ q ∈ cells, v ∈ q.neighbors)) := by
  obtain ⟨h1, h2, h3⟩ := Unbounded.tick_characterisation cells allowed birth order horder
  exact ⟨fun p => (h1 p).trans (by rw [Unbounded.SpecNext]), h2, h3⟩

/-- Witness for C1: the 2×2 block under Conway rules, at position (0,0). -/
theorem unbounded_tick_spec_witness :
    ((⟨0, 0⟩ : Unbounded.Position) ∈ Unbounded.tick
        {⟨0, 0⟩, ⟨1, 0⟩, ⟨0, 1⟩, ⟨1, 1⟩} [2, 3] [3]
        [⟨0, 0⟩, ⟨1, 0⟩, ⟨0, 1⟩, ⟨1, 1⟩] ↔
      (((⟨0, 0⟩ : Unbounded.Position) ∈
            ({⟨0, 0⟩, ⟨1, 0⟩, ⟨0, 1⟩, ⟨1, 1⟩} : Unbounded.Cells) ∧
          Unbounded.liveNeighborCount {⟨0, 0⟩, ⟨1, 0⟩, ⟨0, 1⟩, ⟨1, 1⟩} ⟨0, 0⟩ ∈ [2, 3]) ∨
       ((⟨0, 0⟩ : Unbounded.Position) ∉
            ({⟨0, 0⟩, ⟨1, 0⟩, ⟨0, 1⟩, ⟨1, 1⟩} : Unbounded.Cells) ∧
          (∃ q ∈ ({⟨0, 0⟩, ⟨1, 0⟩, ⟨0, 1⟩, ⟨1, 1⟩} : Unbounded.Cells),
            (⟨0, 0⟩ : Unbounded.Position) ∈ q.neighbors) ∧
          Unbounded.liveNeighborCount {⟨0, 0⟩, ⟨1, 0⟩, ⟨0, 1⟩, ⟨1, 1⟩} ⟨0, 0⟩ ∈ [3]))) := by
  have h := unbounded_tick_spec {⟨0, 0⟩, ⟨1, 0⟩, ⟨0, 1⟩, ⟨1, 1⟩} [2, 3] [3]
    [⟨0, 0⟩, ⟨1, 0⟩, ⟨0, 1⟩, ⟨1, 1⟩] (by
      intro p
      simp only [List.mem_cons, List.mem_singleton, List.not_mem_nil, or_false,
        Finset.mem_insert, Finset.mem_singleton])
  exact h.1 ⟨0, 0⟩

/-- C2: for the bounded (rectangular) universe, every one of the
`width * height` slots is evaluated against the pre-tick snapshot — an alive
slot is alive in the next grid iff its toroidal live-neighbour count is in
`allowed_neighbors`, a dead slot is alive iff its count is in
`allowed_neighbors_for_birth` — and the buffer swap preserves all
dimensions. -/
theorem bounded_tick_spec (u : Bounded.Universe) (allowed birth : List Nat)
    (hWF : Bounded.WF u) :
    (∀ y x, y < u.cells.length → x < u.gridSize.width →
      ((Bounded.cellAt (u.tick allowed birth).cells y x).state = Bounded.CellState.Alive ↔
        (((Bounded.cellAt u.cells y x).state = Bounded.CellState.Alive ∧
            u.live_neighbor_count ⟨x, y⟩ ∈ allowed) ∨
         ((Bounded.cellAt u.cells y x).state = Bounded.CellState.Dead ∧
            u.live_neighbor_count ⟨x, y⟩ ∈ birth))))
    ∧ (u.tick allowed birth).cells.length = u.cells.length
    ∧ (∀ y, ((u.tick allowed birth).cells.getD y []).length =
        (u.cells.getD y []).length) := by
  obtain ⟨hl, hrow, _⟩ := Bounded.tick_cells_spec u allowed birth
  refine ⟨fun y x hy hx => ?_, hl, hrow⟩
  rw [Bounded.tick_state u allowed birth hWF y x hy hx]
  cases hst : (Bounded.cellAt u.cells y x).state with
  | Dead =>
    by_cases hb : u.live_neighbor_count ⟨x, y⟩ ∈ birth
    · simp [hb]
    · simp [hb]
  | Alive =>
    by_cases ha : u.live_neighbor_count ⟨x, y⟩ ∈ allowed
    · simp [ha]
    · simp [ha]

/-- Witness for C2: the all-dead 2×2 grid under Conway rules at slot (0,0). -/
theorem bounded_tick_spec_witness :
    ((Bounded.cellAt ((Bounded.Universe.dead ⟨2, 2⟩).tick [2, 3] [3]).cells 0 0).state =
        Bounded.CellState.Alive ↔
      (((Bounded.cellAt (Bounded.Universe.dead ⟨2, 2⟩).cells 0 0).state =
            Bounded.CellState.Alive ∧
          (Bounded.Universe.dead ⟨2, 2⟩).live_neighbor_count ⟨0, 0⟩ ∈ [2, 3]) ∨
       ((Bounded.cellAt (Bounded.Universe.dead ⟨2, 2⟩).cells 0 0).state =
            Bounded.CellState.Dead ∧
          (Bounded.Universe.dead ⟨2, 2⟩).live_neighbor_count ⟨0, 0⟩ ∈ [3]))) :=
  (bounded_tick_spec (Bounded.Universe.dead ⟨2, 2⟩) [2, 3] [3] (by decide)).1 0 0
    (by decide) (by decide)

/-- C3: `tick` is deterministic.  Unbounded variant: any two iteration
orders of the live-cell hash map yield the same next generation.  Bounded
variant: two grids with the same life states yield the same life states
after `tick` (the result depends on nothing else). -/
theorem tick_deterministic :
    (∀ (cells : Unbounded.Cells) (allowed birth : List Nat)
        (o1 o2 : List Unbounded.Position),
      (∀ p, p ∈ o1 ↔ p ∈ cells) → (∀ p, p ∈ o2 ↔ p ∈ cells) →
      Unbounded.tick cells allowed birth o1 = Unbounded.tick cells allowed birth o2)
    ∧ (∀ (u1 u2 : Bounded.Universe) (allowed birth : List Nat),
      Bounded.statesOf u1 = Bounded.statesOf u2 →
      Bounded.statesOf (u1.tick allowed birth) = Bounded.statesOf (u2.tick allowed birth)) := by
  constructor
  · intro cells a b o1 o2 h1 h2
    ext p
    rw [(Unbounded.tick_characterisation cells a b o1 h1).1 p,
      (Unbounded.tick_characterisation cells a b o2 h2).1 p]
  · exact Bounded.statesOf_tick_congr

/-- Witness for C3: the blinker ticked with two opposite iteration orders. -/
theorem tick_deterministic_witness :
    Unbounded.tick {⟨0, 0⟩, ⟨1, 0⟩, ⟨2, 0⟩} [2, 3] [3] [⟨0, 0⟩, ⟨1, 0⟩, ⟨2, 0⟩] =
      Unbounded.tick {⟨0, 0⟩, ⟨1, 0⟩, ⟨2, 0⟩} [2, 3] [3] [⟨2, 0⟩, ⟨1, 0⟩, ⟨0, 0⟩] := by
  have h := tick_deterministic.1 {⟨0, 0⟩, ⟨1, 0⟩, ⟨2, 0⟩} [2, 3] [3]
    [⟨0, 0⟩, ⟨1, 0⟩, ⟨2, 0⟩] [⟨2, 0⟩, ⟨1, 0⟩, ⟨0, 0⟩]
    (by
      intro p
      simp only [List.mem_cons, List.mem_singleton, List.not_mem_nil, or_false,
        Finset.mem_insert, Finset.mem_singleton])
    (by
      intro p
      simp only [List.mem_cons, List.mem_singleton, List.not_mem_nil, or_false,
        Finset.mem_insert, Finset.mem_singleton]
      tauto)
  exact h

/-- C4 counterexample: `bounds` of the empty universe returns the sentinel
rectangle whose extrema are inverted — the top is below the bottom and the
right is left of the left — contradicting the claim that the result is never
an inverted rectangle. -/
theorem bounds_empty_inverted :
    (Unbounded.bounds []).top < (Unbounded.bounds []).bottom ∧
    (Unbounded.bounds []).right < (Unbounded.bounds []).left := by decide

/-- C4 amended: on the empty universe `bounds` deterministically returns the
sentinel rectangle `top = right = -(2^31 - 1)`, `bottom = left = 2^31 - 1`,
whose extrema are inverted; callers must guard the empty case themselves. -/
theorem bounds_empty_sentinel :
    Unbounded.bounds [] = ⟨-2147483647, -2147483647, 2147483647, 2147483647⟩ := rfl

/-- C5 counterexample: with `size = 3×3` (odd dimensions) and every draw
below `life_chance`, `generate` creates only 4 live cells — not the
`3 * 3 = 9` the claim requires — and the centred-rectangle position `(1,1)`
is not alive. -/
theorem generate_odd_size_mismatch :
    (Unbounded.generate ⟨3, 3⟩ 1 (fun _ => 0)).card = 4 ∧
    ¬((Unbounded.generate ⟨3, 3⟩ 1 (fun _ => 0)).card = 3 * 3) ∧
    (⟨1, 1⟩ : Unbounded.Position) ∉ Unbounded.generate ⟨3, 3⟩ 1 (fun _ => 0) := by decide

/-- C5 amended: `generate` draws one uniform number per position of the
half-open centred rectangle `[-⌊w/2⌋, ⌊w/2⌋) × [-⌊h/2⌋, ⌊h/2⌋)` — that is
`2⌊h/2⌋ * 2⌊w/2⌋` positions, which equals `width * height` only when both
are even — visits no position twice, includes a position as alive exactly
when its draw is below `life_chance`, and no position outside that rectangle
is ever alive. -/
theorem generate_spec (size : Unbounded.SizeInt) (life_chance : ℚ) (draws : Nat → ℚ) :
    (∀ p, p ∈ Unbounded.generate size life_chance draws ↔
      (∃ i, (Unbounded.generatePositions size)[i]? = some p ∧ draws i < life_chance))
    ∧ (Unbounded.generatePositions size).length =
        (2 * Unbounded.halfOf size.height).toNat * (2 * Unbounded.halfOf size.width).toNat
    ∧ (Unbounded.generatePositions size).Nodup
    ∧ (∀ p, p ∈ Unbounded.generatePositions size ↔
        (-Unbounded.halfOf size.width ≤ p.x ∧ p.x < Unbounded.halfOf size.width ∧
         -Unbounded.halfOf size.height ≤ p.y ∧ p.y < Unbounded.halfOf size.height)) := by
  refine ⟨fun p => ?_, Unbounded.length_generatePositions size,
    Unbounded.nodup_generatePositions size, fun p => Unbounded.mem_generatePositions⟩
  rw [Unbounded.generate, Unbounded.generate_mem_aux]
  simp only [Finset.not_mem_empty, false_or]
  constructor
  · rintro ⟨ip, hip, rfl, hd⟩
    rw [List.mem_enum_iff_getElem?] at hip
    exact ⟨ip.1, hip, hd⟩
  · rintro ⟨i, hi, hd⟩
    exact ⟨(i, p), List.mem_enum_iff_getElem?.2 hi, rfl, hd⟩

/-- C6: on a rectangular grid, `toggle_cells_at` at a position with
`x ≥ width` or `y ≥ height` fails with an index-out-of-bounds error (it
neither wraps the index nor touches any cell), and at an in-range position
it succeeds, flipping exactly that slot's state while preserving the slot's
entity, every other slot, and all dimensions. -/
theorem toggle_bounds_check (u : Bounded.Universe) (x y : Nat) (hWF : Bounded.WF u) :
    ((u.gridSize.width ≤ x ∨ u.gridSize.height ≤ y) →
      u.toggle_cells_at [(x, y)] = Except.error "index out of bounds")
    ∧ (x < u.gridSize.width → y < u.gridSize.height →
      ∃ u2, u.toggle_cells_at [(x, y)] = Except.ok u2 ∧
        (Bounded.cellAt u2.cells y x).state = (Bounded.cellAt u.cells y x).state.toggled ∧
        (Bounded.cellAt u2.cells y x).entity = (Bounded.cellAt u.cells y x).entity ∧
        (∀ y' x', ¬(y' = y ∧ x' = x) →
          Bounded.cellAt u2.cells y' x' = Bounded.cellAt u.cells y' x') ∧
        u2.size = u.size ∧ u2.cells.length = u.cells.length ∧
        (∀ y', (u2.cells.getD y' []).length = (u.cells.getD y' []).length)) := by
  have hgh : u.gridSize.height = u.cells.length := rfl
  constructor
  · rintro (hx | hy)
    · rw [Bounded.toggle_single]
      by_cases hy2 : y < u.cells.length
      · rw [if_pos hy2, if_neg (by rw [hWF y hy2]; omega)]
      · rw [if_neg hy2]
    · rw [Bounded.toggle_single, if_neg (by omega)]
  · intro hx hy
    have hy2 : y < u.cells.length := by omega
    have hx2 : x < (u.cells.getD y []).length := by rw [hWF y hy2]; exact hx
    rw [Bounded.toggle_single, if_pos hy2, if_pos hx2]
    refine ⟨_, rfl, ?_, ?_, ?_, rfl, ?_, ?_⟩
    · show (Bounded.cellAt (Bounded.writeCell u.cells y x _) y x).state = _
      rw [Bounded.cellAt_writeCell, if_pos ⟨rfl, rfl, hy2, hx2⟩]
    · show (Bounded.cellAt (Bounded.writeCell u.cells y x _) y x).entity = _
      rw [Bounded.cellAt_writeCell, if_pos ⟨rfl, rfl, hy2, hx2⟩]
    · intro y' x' hne
      show Bounded.cellAt (Bounded.writeCell u.cells y x _) y' x' = _
      rw [Bounded.cellAt_writeCell, if_neg (fun hcon => hne ⟨hcon.1.symm, hcon.2.1.symm⟩)]
    · show (Bounded.writeCell u.cells y x _).length = _
      rw [Bounded.length_writeCell]
    · intro y'
      show ((Bounded.writeCell u.cells y x _).getD y' []).length = _
      rw [Bounded.rowLen_writeCell]

/-- Witness for C6: column index 5 is out of bounds on the 2×2 grid. -/
theorem toggle_bounds_check_witness :
    (Bounded.Universe.dead ⟨2, 2⟩).toggle_cells_at [(5, 0)] =
      Except.error "index out of bounds" :=
  (toggle_bounds_check (Bounded.Universe.dead ⟨2, 2⟩) 5 0 (by decide)).1 (by decide)

/-- C7 counterexample: the claim fails for rule sets whose birth set holds
0 — in the bounded variant the all-dead 1×1 grid is not empty after one
tick with `allowed_neighbors_for_birth = [0]`: the dead slot has zero live
neighbours and is born. -/
theorem empty_bounded_birth_zero_not_empty :
    ¬Bounded.allDead ((Bounded.Universe.dead ⟨1, 1⟩).tick [] [0]) ∧
    (Bounded.cellAt ((Bounded.Universe.dead ⟨1, 1⟩).tick [] [0]).cells 0 0).state =
      Bounded.CellState.Alive := by decide

/-- C7 amended: an empty universe stays empty after any number of ticks —
unconditionally for the unbounded variant (where the hash-map iteration
order of the empty live map is the empty list at every step), and for the
bounded variant whenever `0 ∉ allowed_neighbors_for_birth` (with 0 in the
birth set, dead slots of an all-dead grid are born, so the unrestricted
claim fails). -/
theorem empty_universe_stays_empty :
    (∀ (allowed birth : List Nat) (n : Nat),
      (fun s => Unbounded.tick s allowed birth [])^[n] (∅ : Unbounded.Cells) = ∅)
    ∧ (∀ (u : Bounded.Universe) (allowed birth : List Nat) (n : Nat),
      Bounded.allDead u → 0 ∉ birth →
      Bounded.allDead ((fun v => Bounded.Universe.tick v allowed birth)^[n] u)) := by
  constructor
  · intro a b n
    exact Function.iterate_fixed (Unbounded.tick_empty a b) n
  · intro u a b n hAD hb
    induction n with
    | zero => simpa using hAD
    | succ k ih =>
      rw [Function.iterate_succ_apply']
      exact Bounded.tick_allDead a b ih hb

/-- Witness for C7: the dead 2×2 grid is still all dead after two Conway
ticks. -/
theorem empty_universe_stays_empty_witness :
    Bounded.allDead ((fun v => Bounded.Universe.tick v [2, 3] [3])^[2]
      (Bounded.Universe.dead ⟨2, 2⟩)) :=
  empty_universe_stays_empty.2 (Bounded.Universe.dead ⟨2, 2⟩) [2, 3] [3] 2
    (by decide) (by decide)

/-- C8: bounded-variant neighbour counting is toroidal: with width and
height at least 2, a live cell at `(width-1, height-1)` is counted among the
neighbours of `(0,0)`, and at every position the count equals the sum of the
states of the 8 slots `((x+dx) mod width, (y+dy) mod height)` for signed
offsets `dx, dy ∈ {-1,0,1}` without `(0,0)` — no edge-of-grid special
case. -/
theorem toroidal_neighbor_count (u : Bounded.Universe)
    (hw : 2 ≤ u.gridSize.width) (hh : 2 ≤ u.gridSize.height) :
    ((Bounded.cellAt u.cells (u.gridSize.height - 1) (u.gridSize.width - 1)).state =
        Bounded.CellState.Alive → 1 ≤ u.live_neighbor_count ⟨0, 0⟩)
    ∧ (∀ x y, u.live_neighbor_count ⟨x, y⟩ = Bounded.toroidalNeighborSum u ⟨x, y⟩) := by
  refine ⟨?_, fun x y => Bounded.live_neighbor_count_eq_toroidal u hw hh x y⟩
  intro halive
  obtain ⟨wk, hwk⟩ : ∃ k, u.gridSize.width = k + 2 := ⟨u.gridSize.width - 2, by omega⟩
  obtain ⟨hk, hhk⟩ : ∃ k, u.gridSize.height = k + 2 := ⟨u.gridSize.height - 2, by omega⟩
  rw [hwk, hhk] at halive
  have e1 : hk + 2 - 1 = hk + 1 := by omega
  have e2 : wk + 2 - 1 = wk + 1 := by omega
  rw [e1, e2] at halive
  rw [Bounded.Universe.live_neighbor_count, hwk, hhk]
  simp only [List.foldl_cons, List.foldl_nil]
  norm_num
  rw [halive]
  simp only [Bounded.CellState.toNat]
  omega

/-- Witness for C8: a 2×2 grid alive only at (1,1) gives (0,0) at least one
neighbour. -/
theorem toroidal_neighbor_count_witness :
    1 ≤ (Bounded.Universe.new ⟨2, 2⟩
      [[⟨none, Bounded.CellState.Dead⟩, ⟨none, Bounded.CellState.Dead⟩],
       [⟨none, Bounded.CellState.Dead⟩, ⟨none, Bounded.CellState.Alive⟩]]).live_neighbor_count
      ⟨0, 0⟩ :=
  (toroidal_neighbor_count (Bounded.Universe.new ⟨2, 2⟩
      [[⟨none, Bounded.CellState.Dead⟩, ⟨none, Bounded.CellState.Dead⟩],
       [⟨none, Bounded.CellState.Dead⟩, ⟨none, Bounded.CellState.Alive⟩]])
    (by decide) (by decide)).1 (by decide)

/-- C9: toggling one position twice restores every cell's alive/dead state —
for the unbounded variant on any live set, and for the bounded variant at
any in-range position (where the whole grid, entity handles included, is
restored exactly). -/
theorem toggle_involution :
    (∀ (cells : Unbounded.Cells) (p : Unbounded.Position),
      Unbounded.toggle_cells_at (Unbounded.toggle_cells_at cells [p]) [p] = cells)
    ∧ (∀ (u : Bounded.Universe) (x y : Nat), y < u.cells.length →
        x < (u.cells.getD y []).length →
      (u.toggle_cells_at [(x, y)]).bind (fun u2 => u2.toggle_cells_at [(x, y)]) =
        Except.ok u) :=
  ⟨Unbounded.toggle_toggle_single, Bounded.toggle_toggle_bounded⟩

/-- Witness for C9: double-toggling slot (0,1) of the dead 2×2 grid. -/
theorem toggle_involution_witness :
    ((Bounded.Universe.dead ⟨2, 2⟩).toggle_cells_at [(0, 1)]).bind
      (fun u2 => u2.toggle_cells_at [(0, 1)]) =
      Except.ok (Bounded.Universe.dead ⟨2, 2⟩) :=
  toggle_involution.2 (Bounded.Universe.dead ⟨2, 2⟩) 0 1 (by decide) (by decide)

/-- C10: the bounded `tick` changes only life states — every slot keeps its
entity handle, the row count, every row length, and the stored `size` field
are all unchanged. -/
theorem bounded_tick_frame (u : Bounded.Universe) (allowed birth : List Nat) :
    (∀ y x, (Bounded.cellAt (u.tick allowed birth).cells y x).entity =
        (Bounded.cellAt u.cells y x).entity)
    ∧ (u.tick allowed birth).cells.length = u.cells.length
    ∧ (∀ y, ((u.tick allowed birth).cells.getD y []).length = (u.cells.getD y []).length)
    ∧ (u.tick allowed birth).size = u.size := by
  obtain ⟨hl, hrow, _⟩ := Bounded.tick_cells_spec u allowed birth
  exact ⟨Bounded.tick_entity u allowed birth, hl, hrow, rfl⟩

end GoL
